import Mathlib

/-!
Shallow embedding of the sliding-window rate limiter of
`internal/middleware` (rate limiting middleware).

Time instants and durations are integers, read as nanoseconds exactly as in
Go's `time.Time` / `time.Duration`; `t1.After(t2)` is `t2 < t1`,
`t1.Before(t2)` is `t1 < t2`, `t.Add(d)` is `t + d`.

The Go code guards its state with mutexes; here the per-client request log
and the client map are passed explicitly, so every function is the body of
the corresponding Go function with the locking stripped and the state made
an argument and a result.  The lock *acquisition order* itself is embedded
separately as event traces at the end of the definitions section.
-/

namespace Middleware

/-- The fields of `config.RateLimitConfig` consumed by the middleware.
`requestsPerMinute` and `burstSize` are Go `int`s, `windowSize` a
`time.Duration` (nanoseconds). -/
structure RateLimitConfig where
  enabled : Bool
  requestsPerMinute : Int
  burstSize : Int
  windowSize : Int
deriving Repr, DecidableEq

/-- The triple returned by `RateLimiter.isAllowed`:
`(allowed, remaining, resetTime)`. -/
structure Decision where
  allowed : Bool
  remaining : Int
  resetIn : Int
deriving Repr, DecidableEq

/-- The eviction loop of `RateLimiter.isAllowed`: it keeps exactly the
entries `reqTime` with `reqTime.After(windowStart)`, i.e. strictly newer
than `windowStart`. -/
def evict (windowStart : Int) (requests : List Int) : List Int :=
  requests.filter (fun reqTime => decide (windowStart < reqTime))

/-- `RateLimiter.isAllowed` for one client: the decision logic run under the
client's lock, with the client's request log passed in and the updated log
returned.  `quota` is `rl.config.RequestsPerMinute`, `windowSize` is
`rl.config.WindowSize`, `now` is `time.Now()`. -/
def isAllowed (quota windowSize now : Int) (requests : List Int) :
    Decision × List Int :=
  let windowStart := now - windowSize
  let valid := evict windowStart requests
  if quota ≤ (valid.length : Int) then
    match valid with
    | [] => (⟨false, 0, windowSize⟩, valid)
    | oldest :: _ =>
      let reset0 := oldest + windowSize - now
      let resetTime := if reset0 < 0 then 0 else reset0
      (⟨false, quota - (valid.length : Int), resetTime⟩, valid)
  else
    let newRequests := valid ++ [now]
    (⟨true, quota - (newRequests.length : Int), 0⟩, newRequests)

/-- The request log after one `isAllowed` call. -/
def stepLog (quota windowSize now : Int) (requests : List Int) : List Int :=
  (isAllowed quota windowSize now requests).2

/-- The request log of one client after a sequence of `isAllowed` calls at
the given instants. -/
def runCalls (quota windowSize : Int) (nows : List Int)
    (requests : List Int) : List Int :=
  nows.foldl (fun reqs now => stepLog quota windowSize now reqs) requests

/-- The deletion test of `RateLimiter.cleanOldClients` for one record:
`len(record.requests) == 0 || record.requests[len-1].Before(cutoff)`. -/
def shouldDelete (cutoff : Int) (requests : List Int) : Bool :=
  match requests.getLast? with
  | none => true
  | some t => decide (t < cutoff)

/-- `RateLimiter.cleanOldClients`: one Reaper pass over the client map
(modelled as an association list), with `cutoff = now - 2 * windowSize`
exactly as `time.Now().Add(-rl.config.WindowSize * 2)`. -/
def cleanOldClients (windowSize now : Int)
    (clients : List (String × List Int)) : List (String × List Int) :=
  clients.filter (fun c => !shouldDelete (now - 2 * windowSize) c.2)

/- ## Client identity resolver (`RateLimiter.getClientIP`) -/

def isDigitCh (c : Char) : Bool := decide ('0' ≤ c) && decide (c ≤ '9')

/-- Split a character list on a separator character (the pieces between
separators, like Go `strings.Split`). -/
def splitOnChar (c : Char) : List Char → List (List Char)
  | [] => [[]]
  | x :: rest =>
    if x = c then [] :: splitOnChar c rest
    else
      match splitOnChar c rest with
      | [] => [[x]]
      | h :: t => (x :: h) :: t

/-- Decimal value of a digit string. -/
def octetVal (cs : List Char) : Nat :=
  cs.foldl (fun acc c => acc * 10 + (c.toNat - '0'.toNat)) 0

/-- One dotted-quad field as accepted by Go `net.ParseIP` for IPv4:
non-empty, decimal digits only, no leading zero, value at most 255. -/
def validOctet (cs : List Char) : Bool :=
  !cs.isEmpty && cs.all isDigitCh
    && (decide (cs.length = 1) || decide (cs.head? ≠ some '0'))
    && decide (octetVal cs ≤ 255)

/-- Model of Go `net.ParseIP` as a validity test, restricted to IPv4
dotted-quad addresses (the IPv6 textual forms are not modelled; every
address this development evaluates it on is IPv4 or invalid). -/
def parseIP (s : String) : Bool :=
  match splitOnChar '.' s.data with
  | [a, b, c, d] => validOctet a && validOctet b && validOctet c && validOctet d
  | _ => false

def lastIdxOf (c : Char) (cs : List Char) : Option Nat :=
  match cs.reverse.findIdx? (· == c) with
  | none => none
  | some j => some (cs.length - 1 - j)

/-- Model of Go `net.SplitHostPort`: splits `host:port` at the last colon;
fails (`none`, Go's non-nil error) when there is no colon, when an
unbracketed host itself contains a colon, or on misplaced brackets; a
`[host]:port` form strips the brackets. -/
def splitHostPort (s : String) : Option (String × String) :=
  let cs := s.data
  match lastIdxOf ':' cs with
  | none => none
  | some i =>
    if cs.head? = some '[' then
      match cs.findIdx? (· == ']') with
      | none => none
      | some e =>
        if e + 1 = cs.length then none
        else if e + 1 = i then
          some (String.mk ((cs.drop 1).take (e - 1)),
            String.mk (cs.drop (i + 1)))
        else none
    else
      let host := cs.take i
      let port := cs.drop (i + 1)
      if host.contains ':' || host.contains '[' || host.contains ']'
          || port.contains '[' || port.contains ']' then none
      else some (String.mk host, String.mk port)

/-- `RateLimiter.getClientIP`: the header values and the remote address are
passed explicitly.  Note the source assigns `firstIP := xff` — the whole
header value, not its first comma-separated token — before calling
`net.ParseIP`, despite the comment "Take the first IP from the
comma-separated list". -/
def getClientIP (xff xri remoteAddr : String) : String :=
  if !xff.isEmpty && parseIP xff then xff
  else if !xri.isEmpty && parseIP xri then xri
  else
    match splitHostPort remoteAddr with
    | some (ip, _) => ip
    | none => remoteAddr

/- ## Admission adapter (`RateLimit` middleware) -/

/-- The JSON error body written by `writeRateLimitError`, as the
`ErrorResponse` struct it encodes. -/
structure ErrorResponse where
  status : String
  error : String
deriving Repr, DecidableEq

/-- The observable effect of the middleware on one response: headers set
(in order), status code written, JSON error body written, and whether
`next.ServeHTTP` was invoked. -/
structure ResponseState where
  headers : List (String × String)
  statusCode : Option Int
  body : Option ErrorResponse
  nextInvoked : Bool
deriving Repr, DecidableEq

def initResponse : ResponseState := ⟨[], none, none, false⟩

/-- `writeRateLimitError`: sets Content-Type, writes the status code and
encodes `ErrorResponse{Status: "error", Error: message}`. -/
def writeRateLimitError (w : ResponseState) (statusCode : Int)
    (message : String) : ResponseState :=
  { w with
    headers := w.headers ++ [("Content-Type", "application/json")],
    statusCode := some statusCode,
    body := some ⟨"error", message⟩ }

def nsPerSecond : Int := 1000000000

/-- `time.Time.Unix` for an instant in nanoseconds since the epoch:
floor division by 10⁹. -/
def unixSeconds (t : Int) : Int := Int.fdiv t nsPerSecond

/-- `int(d.Seconds())` for a duration in nanoseconds: float seconds
truncated toward zero. -/
def wholeSeconds (d : Int) : Int := Int.tdiv d nsPerSecond

/-- The per-request handler built by `RateLimit(cfg)`: when disabled the
middleware is the identity (no headers touched, next invoked); otherwise
it sets the two rate-limit headers from the limiter's decision, and on
deny sets the reset/retry headers, writes HTTP 429 with the error body and
returns without invoking `next`.  The decision triple and the instant
`now` (for `time.Now().Add(resetTime).Unix()`) are parameters. -/
def rateLimit (cfg : RateLimitConfig) (d : Decision) (now : Int) :
    ResponseState :=
  if !cfg.enabled then { initResponse with nextInvoked := true }
  else if !d.allowed then
    writeRateLimitError
      { initResponse with
        headers := [("X-RateLimit-Limit", toString cfg.requestsPerMinute),
                    ("X-RateLimit-Remaining", toString d.remaining),
                    ("X-RateLimit-Reset",
                      toString (unixSeconds (now + d.resetIn))),
                    ("Retry-After", toString (wholeSeconds d.resetIn))] }
      429 "Rate limit exceeded. Too many requests."
  else
    { initResponse with
      headers := [("X-RateLimit-Limit", toString cfg.requestsPerMinute),
                  ("X-RateLimit-Remaining", toString d.remaining)],
      nextInvoked := true }

/- ## Lock acquisition traces -/

/-- Lock events, in program order, on the two lock levels of the limiter:
the coarse `RateLimiter.mutex` and a per-client `ClientRecord.mutex`. -/
inductive LockEvent where
  | acquireCoarse
  | releaseCoarse
  | acquireFine
  | releaseFine
deriving Repr, DecidableEq

/-- Lock events of one `isAllowed` call: the coarse map lock is taken and
released around the lookup/insert, then the client's own lock is taken for
the decision and released on return. -/
def isAllowedLockTrace : List LockEvent :=
  [.acquireCoarse, .releaseCoarse, .acquireFine, .releaseFine]

/-- Lock events of one `cleanOldClients` pass over `n` client records: the
coarse map lock is held for the whole pass (deferred unlock), and each
record's lock is read-acquired and released inside it. -/
def cleanOldClientsLockTrace (n : Nat) : List LockEvent :=
  [LockEvent.acquireCoarse]
    ++ (List.replicate n [LockEvent.acquireFine, LockEvent.releaseFine]).flatten
    ++ [LockEvent.releaseCoarse]

/-- Does the trace ever acquire a fine-grained lock while the coarse lock
is held (initial coarse-held state given by `held`)? -/
def fineAcqWhileCoarse (held : Bool) : List LockEvent → Bool
  | [] => false
  | LockEvent.acquireCoarse :: rest => fineAcqWhileCoarse true rest
  | LockEvent.releaseCoarse :: rest => fineAcqWhileCoarse false rest
  | LockEvent.acquireFine :: rest => held || fineAcqWhileCoarse held rest
  | LockEvent.releaseFine :: rest => fineAcqWhileCoarse held rest

/-- Does the trace ever acquire the coarse lock while a fine-grained lock
is held (initial fine-held state given by `held`)? -/
def coarseAcqWhileFine (held : Bool) : List LockEvent → Bool
  | [] => false
  | LockEvent.acquireFine :: rest => coarseAcqWhileFine true rest
  | LockEvent.releaseFine :: rest => coarseAcqWhileFine false rest
  | LockEvent.acquireCoarse :: rest => held || coarseAcqWhileFine held rest
  | LockEvent.releaseCoarse :: rest => coarseAcqWhileFine held rest

/- ## Helper lemmas on the eviction step -/

theorem mem_evict {windowStart t : Int} {l : List Int} :
    t ∈ evict windowStart l ↔ t ∈ l ∧ windowStart < t := by
  simp [evict]

theorem evict_length_le (windowStart : Int) (l : List Int) :
    (evict windowStart l).length ≤ l.length :=
  List.length_filter_le _ _

theorem evict_eq_self {windowStart : Int} {l : List Int}
    (h : ∀ t ∈ l, windowStart < t) : evict windowStart l = l := by
  apply List.filter_eq_self.mpr
  intro t ht
  simpa using h t ht

theorem isAllowed_snd (quota windowSize now : Int) (l : List Int) :
    (isAllowed quota windowSize now l).2 =
      if quota ≤ ((evict (now - windowSize) l).length : Int) then
        evict (now - windowSize) l
      else evict (now - windowSize) l ++ [now] := by
  unfold isAllowed
  by_cases h : quota ≤ ((evict (now - windowSize) l).length : Int)
  · simp only [h, if_true]
    cases hv : evict (now - windowSize) l <;> simp [hv]
  · simp [h]

theorem step_length_le {quota : Int} (windowSize now : Int) {l : List Int}
    (h : (l.length : Int) ≤ quota) :
    ((stepLog quota windowSize now l).length : Int) ≤ quota := by
  have hvl : ((evict (now - windowSize) l).length : Int) ≤ (l.length : Int) := by
    exact_mod_cast evict_length_le (now - windowSize) l
  rw [stepLog, isAllowed_snd]
  by_cases hc : quota ≤ ((evict (now - windowSize) l).length : Int)
  · simp only [hc, if_true]
    omega
  · simp only [hc, if_false, List.length_append, List.length_singleton]
    push_cast
    omega

theorem step_mem_window {quota : Int} (windowSize now : Int) {l : List Int}
    (hW : 0 ≤ windowSize) :
    ∀ t ∈ stepLog quota windowSize now l, now - windowSize ≤ t := by
  rw [stepLog, isAllowed_snd]
  intro t ht
  by_cases hc : quota ≤ ((evict (now - windowSize) l).length : Int)
  · simp only [hc, if_true] at ht
    exact le_of_lt (mem_evict.mp ht).2
  · simp only [hc, if_false, List.mem_append, List.mem_singleton] at ht
    rcases ht with h1 | h2
    · exact le_of_lt (mem_evict.mp h1).2
    · omega

theorem runCalls_length {quota : Int} (windowSize : Int) (nows : List Int) :
    ∀ l : List Int, (l.length : Int) ≤ quota →
      ((runCalls quota windowSize nows l).length : Int) ≤ quota := by
  induction nows with
  | nil => intro l h; simpa [runCalls] using h
  | cons n ns ih =>
    intro l h
    simp only [runCalls, List.foldl_cons] at *
    exact ih _ (step_length_le windowSize n h)

/- ## C1 -/

/-- C1: for quota `Q ≥ 0` and window `W ≥ 0`, each `isAllowed` call
preserves the invariant that the client's log holds at most `Q` timestamps,
and after the call every timestamp in the log lies within the trailing
window (`≥ now − W`); consequently after any sequence of calls starting
from the empty log (a fresh client) the log never holds more than `Q`
entries, so at most `Q` accepted requests lie within the trailing window. -/
theorem C1_window_invariant (quota windowSize : Int)
    (hq : 0 ≤ quota) (hW : 0 ≤ windowSize) :
    (∀ (now : Int) (l : List Int), (l.length : Int) ≤ quota →
        ((stepLog quota windowSize now l).length : Int) ≤ quota
        ∧ ∀ t ∈ stepLog quota windowSize now l, now - windowSize ≤ t)
    ∧ ∀ nows : List Int,
        ((runCalls quota windowSize nows []).length : Int) ≤ quota := by
  refine ⟨fun now l h => ⟨step_length_le windowSize now h,
    step_mem_window windowSize now hW⟩, fun nows => ?_⟩
  exact runCalls_length windowSize nows [] (by simpa using hq)

/-- C1 witness: the invariant theorem applied at quota 2, window 60. -/
theorem C1_window_invariant_witness :
    (0 : Int) ≤ 2 ∧ (0 : Int) ≤ 60 ∧
    ((∀ (now : Int) (l : List Int), (l.length : Int) ≤ 2 →
        ((stepLog 2 60 now l).length : Int) ≤ 2
        ∧ ∀ t ∈ stepLog 2 60 now l, now - 60 ≤ t)
     ∧ ∀ nows : List Int, ((runCalls 2 60 nows []).length : Int) ≤ 2) :=
  ⟨by norm_num, by norm_num, C1_window_invariant 2 60 (by norm_num) (by norm_num)⟩

theorem isAllowed_eq (quota windowSize now : Int) (l : List Int) :
    isAllowed quota windowSize now l =
      if quota ≤ ((evict (now - windowSize) l).length : Int) then
        match evict (now - windowSize) l with
        | [] => (⟨false, 0, windowSize⟩, [])
        | oldest :: rest =>
          (⟨false, quota - (((oldest :: rest).length : Nat) : Int),
            if oldest + windowSize - now < 0 then 0
            else oldest + windowSize - now⟩, oldest :: rest)
      else
        (⟨true, quota - (((evict (now - windowSize) l).length + 1 : Nat) : Int),
          0⟩, evict (now - windowSize) l ++ [now]) := by
  unfold isAllowed
  by_cases hc : quota ≤ ((evict (now - windowSize) l).length : Int)
  · simp only [hc, if_true]
    cases hval : evict (now - windowSize) l <;> simp [hval]
  · simp [hc]

theorem clamp_eq_max (x : Int) : (if x < 0 then 0 else x) = max 0 x := by
  rcases lt_or_le x 0 with h | h
  · rw [if_pos h, max_eq_left h.le]
  · rw [if_neg (not_lt.mpr h), max_eq_right h]

/- ## C2 -/

/-- C2: for quota ≥ 0, window ≥ 0 and a log satisfying the C1 invariant
(at most `quota` entries): with `count` the log length after eviction, if
`count ≥ quota` the decision denies with `remaining = 0` and
`resetIn = max 0 ((oldest remaining entry + windowSize) − now)`, or
`resetIn = windowSize` when the evicted log is empty; otherwise it allows,
appends `now`, and `remaining = quota − (count + 1)`.  In every case
`remaining ≥ 0` and `resetIn ≥ 0`. -/
theorem C2_decision (quota windowSize now : Int) (l : List Int)
    (_hq : 0 ≤ quota) (hW : 0 ≤ windowSize)
    (hlen : (l.length : Int) ≤ quota) :
    ((quota ≤ ((evict (now - windowSize) l).length : Int) →
        (isAllowed quota windowSize now l).1.allowed = false
        ∧ (isAllowed quota windowSize now l).1.remaining = 0
        ∧ (evict (now - windowSize) l = [] →
            (isAllowed quota windowSize now l).1.resetIn = windowSize)
        ∧ ∀ o rest, evict (now - windowSize) l = o :: rest →
            (isAllowed quota windowSize now l).1.resetIn
              = max 0 (o + windowSize - now))
     ∧ (((evict (now - windowSize) l).length : Int) < quota →
        (isAllowed quota windowSize now l).1.allowed = true
        ∧ (isAllowed quota windowSize now l).2
            = evict (now - windowSize) l ++ [now]
        ∧ (isAllowed quota windowSize now l).1.remaining
            = quota - (((evict (now - windowSize) l).length : Int) + 1)))
    ∧ 0 ≤ (isAllowed quota windowSize now l).1.remaining
    ∧ 0 ≤ (isAllowed quota windowSize now l).1.resetIn := by
  have hvl : ((evict (now - windowSize) l).length : Int) ≤ (l.length : Int) := by
    exact_mod_cast evict_length_le (now - windowSize) l
  by_cases hc : quota ≤ ((evict (now - windowSize) l).length : Int)
  · cases hval : evict (now - windowSize) l with
    | nil =>
      have hc0 : quota ≤ (([] : List Int).length : Int) := hval ▸ hc
      have hd : isAllowed quota windowSize now l = (⟨false, 0, windowSize⟩, []) := by
        rw [isAllowed_eq, hval, if_pos hc0]
      rw [hd]
      exact ⟨⟨fun _ => ⟨rfl, rfl, fun _ => rfl,
          fun o rest hor => absurd hor (Ne.symm (List.cons_ne_nil o rest))⟩,
        fun hlt => absurd hc0 (not_le.mpr hlt)⟩, le_refl 0, hW⟩
    | cons o rest =>
      have hc0 : quota ≤ (((o :: rest) : List Int).length : Int) := hval ▸ hc
      have hvl0 : (((o :: rest) : List Int).length : Int) ≤ (l.length : Int) :=
        hval ▸ hvl
      have hd : isAllowed quota windowSize now l =
          (⟨false, quota - (((o :: rest).length : Nat) : Int),
            if o + windowSize - now < 0 then 0
            else o + windowSize - now⟩, o :: rest) := by
        rw [isAllowed_eq, hval, if_pos hc0]
      rw [hd]
      refine ⟨⟨fun _ => ⟨rfl, ?_, fun hnil => absurd hnil (List.cons_ne_nil o rest),
          fun o' rest' hor => ?_⟩,
        fun hlt => absurd hc0 (not_le.mpr hlt)⟩, ?_, ?_⟩
      · show quota - (((o :: rest).length : Nat) : Int) = 0
        omega
      · injection hor with h1 h2
        subst h1
        exact clamp_eq_max _
      · show 0 ≤ quota - (((o :: rest).length : Nat) : Int)
        omega
      · show (0 : Int) ≤ if o + windowSize - now < 0 then 0
          else o + windowSize - now
        rw [clamp_eq_max]
        exact le_max_left 0 _
  · have hd : isAllowed quota windowSize now l =
        (⟨true, quota - (((evict (now - windowSize) l).length + 1 : Nat) : Int),
          0⟩, evict (now - windowSize) l ++ [now]) := by
      rw [isAllowed_eq, if_neg hc]
    have hlt := not_le.mp hc
    rw [hd]
    refine ⟨⟨fun hge => absurd hge hc, fun _ => ⟨rfl, rfl, ?_⟩⟩, ?_, le_refl 0⟩
    · show quota - (((evict (now - windowSize) l).length + 1 : Nat) : Int)
        = quota - (((evict (now - windowSize) l).length : Int) + 1)
      push_cast
      ring
    · show 0 ≤ quota - (((evict (now - windowSize) l).length + 1 : Nat) : Int)
      push_cast
      omega

/-- C2 witness: the decision theorem applied at quota 2, window 60,
now 100, log `[50]`. -/
theorem C2_decision_witness :
    (0 : Int) ≤ 2 ∧ (0 : Int) ≤ 60 ∧ (([(50 : Int)].length : Int) ≤ 2) ∧
    (0 ≤ (isAllowed 2 60 100 [(50 : Int)]).1.remaining
     ∧ 0 ≤ (isAllowed 2 60 100 [(50 : Int)]).1.resetIn) :=
  ⟨by norm_num, by norm_num, by norm_num,
    (C2_decision 2 60 100 [50] (by norm_num) (by norm_num) (by norm_num)).2⟩

/- ## C3 -/

/-- C3 counterexample: with `now = 60` and `windowSize = 60` (so
`windowStart = 0`), a log entry with timestamp exactly `now − windowSize`
is **not** retained by the eviction step, although it is not strictly older
than `windowStart`; the claim says such an entry is retained. -/
theorem C3_counterexample :
    evict ((60 : Int) - 60) [(0 : Int)] = [] ∧ ¬ ((0 : Int) < (60 : Int) - 60) := by
  constructor
  · rfl
  · decide

/-- C3 (amended): the eviction step retains exactly the entries strictly
newer than `windowStart = now − windowSize`; in particular an entry whose
timestamp equals `now − windowSize` is dropped and no longer counted. -/
theorem C3_eviction_exact (windowStart t : Int) (l : List Int) :
    t ∈ evict windowStart l ↔ t ∈ l ∧ windowStart < t :=
  mem_evict

/- ## C7 -/

/-- C7: one `cleanOldClients` pass keeps a client record exactly when its
log is non-empty and its most recent entry `t` satisfies
`now − 2·windowSize ≤ t` (i.e. `t` is not strictly older than the cutoff);
every record with an empty log, and every record whose most recent entry is
strictly older than `2 × windowSize` ago, is removed. -/
theorem C7_reaper_exact (windowSize now : Int)
    (clients : List (String × List Int)) (k : String) (l : List Int) :
    (k, l) ∈ cleanOldClients windowSize now clients ↔
      ((k, l) ∈ clients
       ∧ ∃ t, l.getLast? = some t ∧ now - 2 * windowSize ≤ t) := by
  simp only [cleanOldClients, List.mem_filter, Bool.not_eq_true',
    shouldDelete]
  constructor
  · rintro ⟨hm, hs⟩
    refine ⟨hm, ?_⟩
    cases hg : l.getLast? with
    | none => rw [hg] at hs; exact absurd hs (by simp)
    | some t =>
      rw [hg] at hs
      simp only [decide_eq_false_iff_not, not_lt] at hs
      exact ⟨t, rfl, hs⟩
  · rintro ⟨hm, t, hg, ht⟩
    refine ⟨hm, ?_⟩
    rw [hg]
    simp only [decide_eq_false_iff_not, not_lt]
    exact ht

/- ## C8 -/

theorem isAllowed_allowed_iff (quota windowSize now : Int) (l : List Int) :
    (isAllowed quota windowSize now l).1.allowed = true ↔
      ((evict (now - windowSize) l).length : Int) < quota := by
  rw [isAllowed_eq]
  by_cases hc : quota ≤ ((evict (now - windowSize) l).length : Int)
  · rw [if_pos hc]
    cases hval : evict (now - windowSize) l with
    | nil =>
      rw [hval] at hc
      exact ⟨fun h => absurd h (by simp), fun h => absurd hc (not_le.mpr h)⟩
    | cons o rest =>
      rw [hval] at hc
      exact ⟨fun h => absurd h (by simp), fun h => absurd hc (not_le.mpr h)⟩
  · rw [if_neg hc]
    exact ⟨fun _ => not_le.mp hc, fun _ => rfl⟩

/-- C8: two consecutive `isAllowed` calls of one client with no log entry
aging out of the window at either call: if both are allowed, the second
`remaining` is exactly the first `remaining` minus one, so `remaining` over
a run of such allowed calls is strictly decreasing (in particular
non-increasing). -/
theorem C8_remaining_decreases (quota windowSize now₁ now₂ : Int)
    (l : List Int)
    (h1 : ∀ t ∈ l, now₁ - windowSize < t)
    (h2 : ∀ t ∈ l ++ [now₁], now₂ - windowSize < t)
    (ha1 : (isAllowed quota windowSize now₁ l).1.allowed = true)
    (ha2 : (isAllowed quota windowSize now₂
        (isAllowed quota windowSize now₁ l).2).1.allowed = true) :
    (isAllowed quota windowSize now₂
        (isAllowed quota windowSize now₁ l).2).1.remaining
      = (isAllowed quota windowSize now₁ l).1.remaining - 1 := by
  have he1 : evict (now₁ - windowSize) l = l := evict_eq_self h1
  have hc1 : ((evict (now₁ - windowSize) l).length : Int) < quota :=
    (isAllowed_allowed_iff quota windowSize now₁ l).mp ha1
  have hsnd : (isAllowed quota windowSize now₁ l).2 = l ++ [now₁] := by
    rw [isAllowed_snd, if_neg (not_le.mpr hc1), he1]
  have hd1 : (isAllowed quota windowSize now₁ l).1.remaining
      = quota - ((l.length : Int) + 1) := by
    rw [isAllowed_eq, if_neg (not_le.mpr hc1), he1]
    show quota - ((l.length + 1 : Nat) : Int) = quota - ((l.length : Int) + 1)
    push_cast
    ring
  have he2 : evict (now₂ - windowSize) (l ++ [now₁]) = l ++ [now₁] :=
    evict_eq_self h2
  have hc2 : ((evict (now₂ - windowSize) (l ++ [now₁])).length : Int) < quota := by
    have := (isAllowed_allowed_iff quota windowSize now₂
      (isAllowed quota windowSize now₁ l).2).mp ha2
    rwa [hsnd] at this
  have hd2 : (isAllowed quota windowSize now₂ (l ++ [now₁])).1.remaining
      = quota - (((l ++ [now₁]).length : Int) + 1) := by
    rw [isAllowed_eq, if_neg (not_le.mpr hc2), he2]
    show quota - (((l ++ [now₁]).length + 1 : Nat) : Int)
      = quota - (((l ++ [now₁]).length : Int) + 1)
    push_cast
    ring
  rw [hsnd, hd2, hd1]
  simp only [List.length_append, List.length_singleton]
  push_cast
  ring

/-- C8 witness: quota 3, window 60, calls at instants 10 and 20 on the
empty log; the second remaining is the first minus one. -/
theorem C8_remaining_decreases_witness :
    (∀ t ∈ ([] : List Int), (10 : Int) - 60 < t)
    ∧ (∀ t ∈ ([] : List Int) ++ [(10 : Int)], (20 : Int) - 60 < t)
    ∧ (isAllowed 3 60 10 ([] : List Int)).1.allowed = true
    ∧ (isAllowed 3 60 20 (isAllowed 3 60 10 ([] : List Int)).2).1.allowed = true
    ∧ (isAllowed 3 60 20 (isAllowed 3 60 10 ([] : List Int)).2).1.remaining
        = (isAllowed 3 60 10 ([] : List Int)).1.remaining - 1 :=
  ⟨by decide, by decide, by decide, by decide,
    C8_remaining_decreases 3 60 10 20 [] (by decide) (by decide)
      (by decide) (by decide)⟩

/- ## C10 -/

/-- C10: if one client's log is sorted (entries in non-decreasing order,
as produced by non-decreasing `now` values) and every entry is ≤ `now`,
then after an `isAllowed` call the log is again sorted with every entry
≤ `now` (eviction keeps an ordered subsequence, allow appends the latest
instant); moreover the first element of the evicted log is its oldest
(minimal) entry, and it is exactly the entry the deny branch uses to
compute `resetIn = max 0 ((oldest + windowSize) − now)`. -/
theorem C10_sorted_log (quota windowSize now : Int) (l : List Int)
    (hs : l.Sorted (· ≤ ·))
    (hb : ∀ t ∈ l, t ≤ now) :
    ((isAllowed quota windowSize now l).2.Sorted (· ≤ ·))
    ∧ (∀ t ∈ (isAllowed quota windowSize now l).2, t ≤ now)
    ∧ ∀ o rest, evict (now - windowSize) l = o :: rest →
        (∀ t ∈ evict (now - windowSize) l, o ≤ t)
        ∧ (quota ≤ (((o :: rest) : List Int).length : Int) →
            (isAllowed quota windowSize now l).1.resetIn
              = max 0 (o + windowSize - now)) := by
  have hsv : (evict (now - windowSize) l).Sorted (· ≤ ·) := hs.filter _
  have hsub : ∀ t ∈ evict (now - windowSize) l, t ≤ now := fun t ht =>
    hb t (mem_evict.mp ht).1
  refine ⟨?_, ?_, ?_⟩
  · rw [isAllowed_snd]
    by_cases hc : quota ≤ ((evict (now - windowSize) l).length : Int)
    · rw [if_pos hc]
      exact hsv
    · rw [if_neg hc]
      refine List.pairwise_append.mpr ⟨hsv, List.pairwise_singleton _ _, ?_⟩
      intro x hx y hy
      rw [List.mem_singleton] at hy
      subst hy
      exact hsub x hx
  · rw [isAllowed_snd]
    by_cases hc : quota ≤ ((evict (now - windowSize) l).length : Int)
    · rw [if_pos hc]
      exact hsub
    · rw [if_neg hc]
      intro t ht
      rcases List.mem_append.mp ht with h1 | h2
      · exact hsub t h1
      · rw [List.mem_singleton] at h2
        subst h2
        exact le_refl t
  · intro o rest hor
    have hcons : ((o :: rest) : List Int).Sorted (· ≤ ·) := hor ▸ hsv
    refine ⟨?_, fun hq' => ?_⟩
    · rw [hor]
      intro t ht
      rcases List.mem_cons.mp ht with rfl | hmem
      · exact le_refl t
      · exact (List.pairwise_cons.mp hcons).1 t hmem
    · rw [isAllowed_eq, hor, if_pos hq']
      exact clamp_eq_max _

/-- C10 witness: quota 2, window 60, call at instant 100 on the sorted log
`[50, 90]`. -/
theorem C10_sorted_log_witness :
    ([(50 : Int), 90].Sorted (· ≤ ·))
    ∧ (∀ t ∈ [(50 : Int), 90], t ≤ (100 : Int))
    ∧ ((isAllowed 2 60 100 [(50 : Int), 90]).2.Sorted (· ≤ ·)) :=
  ⟨by decide, by decide,
    (C10_sorted_log 2 60 100 [50, 90] (by decide) (by decide)).1⟩

/- ## C4 / C5: the client identity resolver -/

theorem getClientIP_eq (xff xri remoteAddr : String) :
    getClientIP xff xri remoteAddr =
      if !xff.isEmpty && parseIP xff then xff
      else if !xri.isEmpty && parseIP xri then xri
      else ((splitHostPort remoteAddr).map Prod.fst).getD remoteAddr := by
  unfold getClientIP
  cases h1 : (!xff.isEmpty && parseIP xff) with
  | true => rfl
  | false =>
    cases h2 : (!xri.isEmpty && parseIP xri) with
    | true => rfl
    | false =>
      show (match splitHostPort remoteAddr with
            | some (ip, _) => ip
            | none => remoteAddr) = _
      cases hsp : splitHostPort remoteAddr with
      | none => rfl
      | some pr => cases pr with | mk ip p => rfl

theorem ne_empty_of_isEmpty_false {s : String} (h : s.isEmpty = false) :
    s ≠ "" := by
  intro he
  subst he
  have ht : ("" : String).isEmpty = true := by decide
  rw [ht] at h
  exact absurd h (by decide)

/-- C4: the code contradicts its own comment "Take the first IP from the
comma-separated list".  For the forwarded-for header
`"203.0.113.7, 198.51.100.2"` the first comma-separated token
`"203.0.113.7"` is a valid IP address, yet the resolver tests the entire
header value (`firstIP := xff`), which is not a valid IP, skips the header
and falls back to the remote address instead of returning the first token. -/
theorem C4_first_token_ignored :
    splitOnChar ',' ("203.0.113.7, 198.51.100.2").data
      = ["203.0.113.7".data, " 198.51.100.2".data]
    ∧ parseIP "203.0.113.7" = true
    ∧ parseIP "203.0.113.7, 198.51.100.2" = false
    ∧ getClientIP "203.0.113.7, 198.51.100.2" "" "192.0.2.1:8080"
        = "192.0.2.1" := by
  refine ⟨by decide, by decide, by decide, by decide⟩

/-- C5 counterexample: with every identity input empty the resolver
returns the empty string, so the ClientKey is not always non-empty as the
claim states. -/
theorem C5_counterexample : getClientIP "" "" "" = "" := by decide

/-- C5 (amended): the resolver is a total function over every combination
of the two headers and the remote address, headers that are empty or do
not parse as an IP are skipped to the next priority, and the final
fallback is the remote address stripped of its port (the raw remote
address when stripping fails); the returned ClientKey is non-empty
whenever that fallback value is non-empty (it can be empty only when the
remote address itself is empty or splits to an empty host). -/
theorem C5_resolver_total (xff xri remoteAddr : String)
    (hfb : ((splitHostPort remoteAddr).map Prod.fst).getD remoteAddr ≠ "") :
    getClientIP xff xri remoteAddr ≠ ""
    ∧ ((!xff.isEmpty && parseIP xff) = true →
        getClientIP xff xri remoteAddr = xff)
    ∧ ((!xff.isEmpty && parseIP xff) = false →
        (!xri.isEmpty && parseIP xri) = true →
        getClientIP xff xri remoteAddr = xri)
    ∧ ((!xff.isEmpty && parseIP xff) = false →
        (!xri.isEmpty && parseIP xri) = false →
        getClientIP xff xri remoteAddr
          = ((splitHostPort remoteAddr).map Prod.fst).getD remoteAddr) := by
  rw [getClientIP_eq]
  cases h1 : (!xff.isEmpty && parseIP xff) with
  | true =>
    have hne : xff ≠ "" := by
      have := (Bool.and_eq_true _ _).mp h1
      exact ne_empty_of_isEmpty_false (Bool.not_eq_true' .. ▸ this.1)
    exact ⟨(by simpa using hne), (fun _ => by simp), (fun hf _ => by cases hf),
      (fun hf _ => by cases hf)⟩
  | false =>
    cases h2 : (!xri.isEmpty && parseIP xri) with
    | true =>
      have hne : xri ≠ "" := by
        have := (Bool.and_eq_true _ _).mp h2
        exact ne_empty_of_isEmpty_false (Bool.not_eq_true' .. ▸ this.1)
      exact ⟨(by simpa using hne), (fun ht => by cases ht), (fun _ _ => by simp),
        (fun _ hf => by cases hf)⟩
    | false =>
      exact ⟨(by simpa using hfb), (fun ht => by cases ht),
        (fun _ ht => by cases ht), (fun _ _ => by simp)⟩

/-- C5 witness: empty headers, remote address `"10.0.0.5:443"`; the
resolver returns the non-empty host `"10.0.0.5"`. -/
theorem C5_resolver_total_witness :
    ((splitHostPort "10.0.0.5:443").map Prod.fst).getD "10.0.0.5:443" ≠ ""
    ∧ getClientIP "" "" "10.0.0.5:443" ≠ "" :=
  ⟨by decide, (C5_resolver_total "" "" "10.0.0.5:443" (by decide)).1⟩

/- ## C6 -/

/-- C6: with the limiter enabled, every response carries
`X-RateLimit-Limit` (configured quota) and `X-RateLimit-Remaining` (the
decision's remaining); a denied request additionally gets
`X-RateLimit-Reset` (unix seconds of `now + resetIn`) and `Retry-After`
(whole seconds of `resetIn`), HTTP 429 with body
`{"status":"error","error":"Rate limit exceeded. Too many requests."}`,
and `next` is not invoked; an allowed request invokes `next` and gets
neither deny header. -/
theorem C6_adapter (cfg : RateLimitConfig) (d : Decision) (now : Int)
    (hen : cfg.enabled = true) :
    (rateLimit cfg d now).headers.lookup "X-RateLimit-Limit"
        = some (toString cfg.requestsPerMinute)
    ∧ (rateLimit cfg d now).headers.lookup "X-RateLimit-Remaining"
        = some (toString d.remaining)
    ∧ (d.allowed = false →
        (rateLimit cfg d now).headers.lookup "X-RateLimit-Reset"
            = some (toString (unixSeconds (now + d.resetIn)))
        ∧ (rateLimit cfg d now).headers.lookup "Retry-After"
            = some (toString (wholeSeconds d.resetIn))
        ∧ (rateLimit cfg d now).statusCode = some 429
        ∧ (rateLimit cfg d now).body
            = some ⟨"error", "Rate limit exceeded. Too many requests."⟩
        ∧ (rateLimit cfg d now).nextInvoked = false)
    ∧ (d.allowed = true →
        (rateLimit cfg d now).nextInvoked = true
        ∧ (rateLimit cfg d now).headers.lookup "X-RateLimit-Reset" = none
        ∧ (rateLimit cfg d now).headers.lookup "Retry-After" = none) := by
  unfold rateLimit
  rw [hen, if_neg (show ¬((!true) = true) from by decide)]
  cases hall : d.allowed with
  | false =>
    rw [if_pos (show (!false) = true from rfl)]
    exact ⟨rfl, rfl, (fun _ => ⟨rfl, rfl, rfl, rfl, rfl⟩), (fun h => by cases h)⟩
  | true =>
    rw [if_neg (show ¬((!true) = true) from by decide)]
    exact ⟨rfl, rfl, (fun h => by cases h), (fun _ => ⟨rfl, rfl, rfl⟩)⟩

/-- C6 witness: enabled config (quota 5, window 60), denied decision with
resetIn 30; the response is a 429. -/
theorem C6_adapter_witness :
    (RateLimitConfig.mk true 5 10 60).enabled = true
    ∧ (rateLimit ⟨true, 5, 10, 60⟩ ⟨false, 0, 30⟩ 100).statusCode = some 429 :=
  ⟨rfl, ((C6_adapter ⟨true, 5, 10, 60⟩ ⟨false, 0, 30⟩ 100 rfl).2.2.1 rfl).2.2.1⟩

/- ## C9 -/

/-- C9 counterexample: one Reaper pass over a single tracker acquires the
per-tracker lock while the coarse map lock is held (the coarse lock is
held, via defer, for the entire pass), so the claimed rule "never hold the
coarse lock while acquiring a fine-grained lock" fails for the Reaper. -/
theorem C9_counterexample :
    fineAcqWhileCoarse false (cleanOldClientsLockTrace 1) = true := by decide

theorem coarseAcqWhileFine_replicate (n : Nat) (rest : List LockEvent) :
    coarseAcqWhileFine false
        ((List.replicate n
          [LockEvent.acquireFine, LockEvent.releaseFine]).flatten ++ rest)
      = coarseAcqWhileFine false rest := by
  induction n with
  | zero => rfl
  | succ m ih =>
    rw [List.replicate_succ, List.flatten_cons, List.append_assoc]
    exact ih

/-- C9 (amended): the request path (`isAllowed`) holds neither lock level
while acquiring the other, and no path — request or Reaper — ever holds a
per-tracker lock while acquiring the coarse lock; the Reaper, however,
does hold the coarse lock while acquiring each per-tracker lock. -/
theorem C9_lock_discipline :
    fineAcqWhileCoarse false isAllowedLockTrace = false
    ∧ coarseAcqWhileFine false isAllowedLockTrace = false
    ∧ ∀ n, coarseAcqWhileFine false (cleanOldClientsLockTrace n) = false := by
  refine ⟨by decide, by decide, fun n => ?_⟩
  show coarseAcqWhileFine false
    ((List.replicate n [LockEvent.acquireFine, LockEvent.releaseFine]).flatten
      ++ [LockEvent.releaseCoarse]) = false
  rw [coarseAcqWhileFine_replicate]
  rfl

end Middleware
